import Mathlib

/-!
Shallow embedding of `gan_utils.py` (repository gitwyy/gan_flowers).

Modelling conventions:
* A torch / numpy array is a `Tensor`: a shape (list of dimension sizes)
  together with a flat list of rational values.  Rational numbers stand in
  for the floating-point values; all the arithmetic used by the code
  (addition, subtraction, absolute value, division by constants, clamping)
  is exact on the inputs the claims consider.
* External library calls (`skimage.io.imread`, `skimage.transform.resize`)
  are parameters gathered in an `Env`: the code treats them as opaque
  decoders, and the spec's claims are stated "for a fixed, deterministic
  decode", which is exactly a function parameter.
* Sources of randomness (`torch.randn`, `torch.rand`, `np.random.randint`,
  `torch.randperm`) are passed in as explicit streams; a theorem that
  quantifies over the stream holds for every possible random draw.
* Device placement (`.to(device)`) is the identity in this model: the
  claims only speak about numeric values, never about devices.
* Python exceptions (index errors) are modelled with `Option`.
-/

structure Tensor where
  shape : List Nat
  data : List ℚ
deriving DecidableEq

/-- A default tensor used with `List.getD`; stands for no particular array. -/
def Tensor.default : Tensor := ⟨[], []⟩

/-- Elementwise addition (`+=` on equally-shaped torch tensors). -/
def Tensor.add (a b : Tensor) : Tensor :=
  ⟨a.shape, a.data.zipWith (· + ·) b.data⟩

/-- `np.expand_dims(m, axis=-1)`: append a trailing dimension of size 1. -/
def expand_dims (t : Tensor) : Tensor :=
  ⟨t.shape ++ [1], t.data⟩

/-- Apply an optional transform (`if self.transform is not None: ...`). -/
def applyT (f : Option (Tensor → Tensor)) (t : Tensor) : Tensor :=
  match f with
  | none => t
  | some g => g t

/-- The external image/mask decoding functions used by `gan_utils.py`:
`io.imread(path)`, `io.imread(path, as_gray=True)` and
`transform.resize(mask, (size, size))`.  They are deterministic parameters
of the model. -/
structure Env where
  imread : String → Tensor
  imreadGray : String → Tensor
  resize : Tensor → Nat → Tensor

/-- `torch.full((size,), real)`. -/
def torch_full (size : Nat) (real : ℚ) : List ℚ :=
  List.replicate size real

/-- `torch.rand(size)` given a stream of uniform draws. -/
def torch_rand (size : Nat) (rand : Nat → ℚ) : List ℚ :=
  (List.range size).map rand

/--
`get_label(size, real, soft, noise, noise_level)` from `gan_utils.py`
(lines 109-119).  `rand` is the stream behind `torch.rand(size)`, `perm`
the permutation behind `torch.randperm(size)`.
-/
def get_label (size : Nat) (real : ℚ) (soft : ℚ) (noise : Bool)
    (noise_level : ℚ) (rand : Nat → ℚ) (perm : List Nat) : List ℚ :=
  let label := torch_full size real
  let label :=
    if real == 1 then
      label.zipWith (fun l r => l - r * soft) (torch_rand size rand)
    else
      label.zipWith (fun l r => l + r * soft) (torch_rand size rand)
  if noise then
    let idx := perm.take (Int.toNat ⌊(size : ℚ) * noise_level⌋)
    (List.range label.length).map (fun i =>
      if i ∈ idx then 1 - label.getD i 0 else label.getD i 0)
  else
    label

/-- `torch.clamp(x, -1, 1)` on one value. -/
def clamp1 (x : ℚ) : ℚ := min 1 (max (-1) x)

/--
`noise_input(data, noise_level, device, clip)` from `gan_utils.py`
(lines 121-129).  `randn` is the stream behind `torch.randn(data.size())`;
`.to(device)` is the identity here.
-/
def noise_input (data : Tensor) (noise_level : ℚ) (randn : Nat → ℚ)
    (clip : Bool) : Tensor :=
  if noise_level == 0 then
    data
  else
    let noise_data : Tensor :=
      ⟨data.shape, (List.range data.data.length).map (fun i => randn i * noise_level)⟩
    let noise_data := noise_data.add data
    if clip then ⟨noise_data.shape, noise_data.data.map clamp1⟩ else noise_data

/--
`mask_pair_to_label(mask, real_mask)` from `gan_utils.py` (lines 98-107).
A mask list holds one batch tensor per resolution; `mask[-1]` is the last
(finest) one, of shape `(b_size, 1, s, s)`.  `view(b_size, -1).mean(1)`
averages each row of length `numel / b_size`.
-/
def mask_pair_to_label (mask real_mask : List Tensor) : List ℚ :=
  let mask1 := mask.getLastD Tensor.default
  let mask2 := real_mask.getLastD Tensor.default
  let b_size := mask1.shape.headD 0
  let row := mask1.data.length / b_size
  let diff := mask1.data.zipWith (fun a b => |a - b| / 2) mask2.data
  (List.range b_size).map (fun i =>
    1 - ((diff.drop (i * row)).take row).sum / (row : ℚ))

/-- Does the character list start with the given pattern? -/
def startsWithChars : List Char → List Char → Bool
  | _, [] => true
  | [], _ :: _ => false
  | c :: cs, p :: ps => c == p && startsWithChars cs ps

/-- Does the character list contain the pattern as a contiguous run? -/
def containsChars : List Char → List Char → Bool
  | [], pat => pat.isEmpty
  | c :: cs, pat => startsWithChars (c :: cs) pat || containsChars cs pat

/-- `classname.find(pat) != -1`: the class name contains `pat`. -/
def nameContains (s pat : String) : Bool :=
  containsChars s.toList pat.toList

/-- A model layer: its Python class name, its `weight` and `bias` tensors,
and `extra`, standing for every other attribute of the object. -/
structure Layer where
  className : String
  weight : Tensor
  bias : Tensor
  extra : List ℚ
deriving DecidableEq

/-- `nn.init.normal_(t, mean, std)`: overwrite every entry with a fresh
draw from the given stream (the shape is kept). -/
def normal_overwrite (rnd : Nat → ℚ) (t : Tensor) : Tensor :=
  ⟨t.shape, (List.range t.data.length).map rnd⟩

/-- `nn.init.constant_(t, c)`: overwrite every entry with `c`. -/
def constant_overwrite (c : ℚ) (t : Tensor) : Tensor :=
  ⟨t.shape, List.replicate t.data.length c⟩

/--
`weights_init(m)` from `gan_utils.py` (lines 82-88).  `rndConv` is the
stream of `normal(0.0, 0.02)` draws, `rndBN` the stream of
`normal(1.0, 0.02)` draws; the in-place mutation becomes returning the
updated layer.
-/
def weights_init (rndConv rndBN : Nat → ℚ) (m : Layer) : Layer :=
  if nameContains m.className "Conv" then
    { m with weight := normal_overwrite rndConv m.weight }
  else if nameContains m.className "BatchNorm" then
    { m with weight := normal_overwrite rndBN m.weight,
             bias := constant_overwrite 0 m.bias }
  else
    m

/--
The `flower_dataset` object.  In eager mode (`in_memory = True`) Python
only creates `image` / `mask`; in lazy mode only `image_paths` /
`mask_paths`; here the unused fields are simply left empty.
-/
structure flower_dataset where
  len : Nat
  transform : Option (Tensor → Tensor)
  mask_transform : Option (Tensor → Tensor)
  in_memory : Bool
  mask_sizes : Option (List Nat)
  image : List Tensor
  mask : List (List Tensor)
  image_paths : List String
  mask_paths : List (Option String)

namespace flower_dataset

/-- `get_empty_masks` (line 71-72): `[-torch.ones(1,size,size) for size in self.mask_sizes]`. -/
def get_empty_masks (mask_sizes : Option (List Nat)) : List Tensor :=
  (mask_sizes.getD []).map (fun size => ⟨[1, size, size], List.replicate (size * size) (-1)⟩)

/-- `get_mask(mask_, size)` (lines 74-80): resize when a size is given, then
apply the optional mask transform to the channel-expanded raster. -/
def get_mask (env : Env) (mask_transform : Option (Tensor → Tensor))
    (mask_ : Tensor) (size : Option Nat) : Tensor :=
  let mask := mask_
  let mask :=
    match size with
    | none => mask
    | some s => env.resize mask s
  match mask_transform with
  | none => mask
  | some f => f (expand_dims mask)

/--
The eager-construction loop of `__init__` (lines 29-46), written as a
left fold over `enumerate(image_paths)` carried in the dataset record:
decode each image, skip it (decrementing `len`) when it is not
3-dimensional, otherwise append the transformed image and its mask list.
-/
def eagerLoop (env : Env) (mask_paths : Option (List String))
    (mask_sizes : Option (List Nat)) (tfm mtfm : Option (Tensor → Tensor)) :
    List (Nat × String) → flower_dataset → flower_dataset
  | [], d => d
  | (i, path) :: rest, d =>
    let image := env.imread path
    if image.shape.length ≠ 3 then
      eagerLoop env mask_paths mask_sizes tfm mtfm rest { d with len := d.len - 1 }
    else
      let image := applyT tfm image
      let d := { d with image := d.image ++ [image] }
      let d :=
        match mask_paths with
        | none => { d with mask := d.mask ++ [get_empty_masks mask_sizes] }
        | some mps =>
          let mask := env.imreadGray (mps.getD i "")
          { d with mask := d.mask ++
              [(mask_sizes.getD []).map (fun size => get_mask env mtfm mask (some size))] }
      eagerLoop env mask_paths mask_sizes tfm mtfm rest d

/-- `__init__` (lines 10-46). -/
def init (env : Env) (image_paths : List String) (mask_paths : Option (List String))
    (mask_sizes : Option (List Nat)) (transform mask_transform : Option (Tensor → Tensor))
    (in_memory : Bool) : flower_dataset :=
  let d : flower_dataset :=
    { len := image_paths.length, transform := transform,
      mask_transform := mask_transform, in_memory := in_memory,
      mask_sizes := mask_sizes, image := [], mask := [],
      image_paths := [], mask_paths := [] }
  if !in_memory then
    { d with
      image_paths := image_paths,
      mask_paths :=
        match mask_paths with
        | none => List.replicate image_paths.length none
        | some mps => mps.map some }
  else
    eagerLoop env mask_paths mask_sizes transform mask_transform image_paths.enum d

/--
`__getitem__` (lines 52-69); an out-of-range index (Python `IndexError`)
is `none`.  Note that the lazy branch reads the mask with plain
`io.imread`, without `as_gray=True`.
-/
def getitem (env : Env) (d : flower_dataset) (idx : Nat) :
    Option (Tensor × List Tensor) :=
  if d.in_memory then
    match d.image[idx]?, d.mask[idx]? with
    | some image, some mask => some (image, mask)
    | _, _ => none
  else
    match d.image_paths[idx]? with
    | none => none
    | some image_path =>
      let image := applyT d.transform (env.imread image_path)
      match d.mask_paths[idx]? with
      | none => none
      | some mask_path =>
        match mask_path with
        | none => some (image, get_empty_masks d.mask_sizes)
        | some mp =>
          let mask := env.imread mp
          some (image, (d.mask_sizes.getD []).map
            (fun size => get_mask env d.mask_transform mask (some size)))

end flower_dataset

/-- The `(1, size, size)` batch-element slice of
`torch.randn(batch_size, 1, size, size) * noise_level` for resolution `k`
and batch element `i`; `randn k i j` is the underlying normal draw. -/
def noiseSlice (randn : Nat → Nat → Nat → ℚ) (noise_level : ℚ)
    (k i size : Nat) : Tensor :=
  ⟨[1, size, size], (List.range (size * size)).map (fun j => randn k i j * noise_level)⟩

/-- The list of per-resolution noise batches built on line 91, each batch
modelled as the list of its `batch_size` slices. -/
def sample_mask_init (batch_size : Nat) (sizes : List Nat) (noise_level : ℚ)
    (randn : Nat → Nat → Nat → ℚ) : List (List Tensor) :=
  sizes.enum.map (fun ks =>
    (List.range batch_size).map (fun i => noiseSlice randn noise_level ks.1 i ks.2))

/-- The inner loop of `sample_mask` (lines 94-95): for each resolution `k`
add `realdata[n][1][k]` into slice `i` of the `k`-th batch. -/
def addRealRow (rm : List Tensor) (i : Nat) :
    List (List Tensor) → Nat → List (List Tensor)
  | [], _ => []
  | col :: rest, k =>
    col.set i ((col.getD i Tensor.default).add (rm.getD k Tensor.default)) ::
      addRealRow rm i rest (k + 1)

/--
`sample_mask(batch_size, sizes, realdata, noise_level)` (lines 90-96).
`realdata` is the indexed dataset view (`realdata[n]` is an
`(image, mask-list)` pair), `pick i` is the draw of
`np.random.randint(len(realdata))` made for batch element `i`.
-/
def sample_mask (batch_size : Nat) (sizes : List Nat)
    (realdata : List (Tensor × List Tensor)) (noise_level : ℚ)
    (randn : Nat → Nat → Nat → ℚ) (pick : Nat → Nat) : List (List Tensor) :=
  (List.range batch_size).foldl
    (fun masks i =>
      addRealRow (realdata.getD (pick i) (Tensor.default, [])).2 i masks 0)
    (sample_mask_init batch_size sizes noise_level randn)

namespace flower_dataset

/-- The eager loop's keep condition: `io.imread(p)` decodes to a
3-dimensional array (`len(image.shape) == 3`). -/
def keep3 (env : Env) (p : String) : Bool :=
  (env.imread p).shape.length == 3

/-- The mask list the eager loop stores for the (kept) input at position `i`. -/
def builtMask (env : Env) (mask_paths : Option (List String))
    (mask_sizes : Option (List Nat)) (mtfm : Option (Tensor → Tensor))
    (i : Nat) : List Tensor :=
  match mask_paths with
  | none => get_empty_masks mask_sizes
  | some mps =>
    (mask_sizes.getD []).map
      (fun size => get_mask env mtfm (env.imreadGray (mps.getD i "")) (some size))

end flower_dataset

/-- `-torch.ones(1, size, size)`: the sentinel "empty" mask. -/
def negOnes (size : Nat) : Tensor :=
  ⟨[1, size, size], List.replicate (size * size) (-1)⟩

/-- The spec's wording for C1: the decoded image "has exactly 3 channels",
i.e. it is an `(H, W, 3)` raster.  (The code instead tests
`len(image.shape) == 3`, i.e. 3 dimensions.) -/
def hasThreeChannels (t : Tensor) : Bool :=
  t.shape.length == 3 && t.shape.getLastD 0 == 3

/-- A concrete, fully computable decoding environment used for witnesses
and counterexamples: `"gray.png"` decodes to a 2-D array, `"rgba.png"` to
a 4-channel `(2, 2, 4)` array, and every other path to a `(1, 1, 3)` RGB
array. -/
def envTest : Env :=
  { imread := fun p =>
      if p = "gray.png" then ⟨[2, 2], [0, 0, 0, 0]⟩
      else if p = "rgba.png" then ⟨[2, 2, 4], List.replicate 16 0⟩
      else ⟨[1, 1, 3], [5, 6, 7]⟩,
    imreadGray := fun _ => ⟨[2, 2], [1, 1, 1, 1]⟩,
    resize := fun t size => ⟨[size, size], List.replicate (size * size) (t.data.headD 0)⟩ }

namespace flower_dataset

theorem eagerLoop_spec (env : Env) (mask_paths : Option (List String))
    (mask_sizes : Option (List Nat)) (tfm mtfm : Option (Tensor → Tensor))
    (l : List (Nat × String)) (d : flower_dataset) :
    eagerLoop env mask_paths mask_sizes tfm mtfm l d =
      { d with
        len := d.len - l.countP (fun x => !keep3 env x.2),
        image := d.image ++ (l.filter (fun x => keep3 env x.2)).map
          (fun x => applyT tfm (env.imread x.2)),
        mask := d.mask ++ (l.filter (fun x => keep3 env x.2)).map
          (fun x => builtMask env mask_paths mask_sizes mtfm x.1) } := by
  induction l generalizing d with
  | nil => simp [eagerLoop]
  | cons hd tl ih =>
    obtain ⟨i, path⟩ := hd
    by_cases h : (env.imread path).shape.length = 3
    · rw [eagerLoop, if_neg (by simp [h])]
      cases mask_paths with
      | none =>
        rw [ih]
        simp [keep3, h, List.countP_cons, List.filter_cons, builtMask,
          List.append_assoc]
      | some mps =>
        rw [ih]
        simp [keep3, h, List.countP_cons, List.filter_cons, builtMask,
          List.append_assoc]
    · rw [eagerLoop, if_pos (by simp [h])]
      rw [ih]
      simp [keep3, h, List.countP_cons, List.filter_cons, Nat.sub_sub,
        Nat.add_comm]

theorem countP_enumFrom_snd {α : Type} (q : α → Bool) (n : Nat) (l : List α) :
    (List.enumFrom n l).countP (fun x => q x.2) = l.countP q := by
  induction l generalizing n with
  | nil => simp
  | cons a tl ih => simp [List.enumFrom_cons, List.countP_cons, ih]

theorem map_snd_enumFrom {α β : Type} (f : α → β) (n : Nat) (l : List α) :
    (List.enumFrom n l).map (fun x => f x.2) = l.map f := by
  have hf : (fun x : Nat × α => f x.2) = f ∘ Prod.snd := rfl
  rw [hf, ← List.map_map, List.enumFrom_map_snd]

theorem map_fst_enumFrom {α β : Type} (g : Nat → β) (n : Nat) (l : List α) :
    (List.enumFrom n l).map (fun x => g x.1) = (List.range' n l.length).map g := by
  have hg : (fun x : Nat × α => g x.1) = g ∘ Prod.fst := rfl
  rw [hg, ← List.map_map, List.enumFrom_map_fst]

theorem countP_not_add {α : Type} (q : α → Bool) (l : List α) :
    l.countP q + l.countP (fun x => !q x) = l.length := by
  induction l with
  | nil => simp
  | cons a tl ih =>
    by_cases h : q a = true <;>
      simp [List.countP_cons, h, ← ih] <;> omega

end flower_dataset

theorem zipWith_left_of_proj {α β : Type} (f : α → β → α) (hf : ∀ a b, f a b = a) :
    ∀ (l1 : List α) (l2 : List β), l1.length ≤ l2.length → List.zipWith f l1 l2 = l1
  | [], _, _ => by simp
  | a :: l1, [], h => by simp at h
  | a :: l1, b :: l2, h => by
    simp only [List.zipWith_cons_cons, hf]
    exact congrArg _ (zipWith_left_of_proj f hf l1 l2 (by simpa using h))

theorem zipWith_self_eq_map {α β : Type} (f : α → α → β) :
    ∀ l : List α, List.zipWith f l l = l.map (fun a => f a a)
  | [] => by simp
  | a :: l => by
    simp only [List.zipWith_cons_cons, List.map_cons]
    exact congrArg _ (zipWith_self_eq_map f l)

/-- C4: with `soft = 0` and `noise = False`, `get_label` returns the
all-ones vector of length `size` for `real = 1` and the all-zeros vector
of length `size` for `real = 0`, whatever the random draws are. -/
theorem get_label_hard_labels (size : Nat) (noise_level : ℚ)
    (rand : Nat → ℚ) (perm : List Nat) :
    get_label size 1 0 false noise_level rand perm = List.replicate size 1 ∧
    get_label size 0 0 false noise_level rand perm = List.replicate size 0 := by
  constructor
  · simp only [get_label, torch_full, torch_rand, if_pos, beq_self_eq_true,
      if_true, Bool.false_eq_true, if_false]
    exact zipWith_left_of_proj _ (by intro a b; ring) _ _ (by simp)
  · have h01 : ((0 : ℚ) == 1) = false := by norm_num
    simp only [get_label, torch_full, torch_rand, h01, Bool.false_eq_true,
      if_false]
    exact zipWith_left_of_proj _ (by intro a b; ring) _ _ (by simp)

/-- C6: `noise_input(data, noise_level=0)` returns `data` unchanged (device
placement is the identity in this model). -/
theorem noise_input_zero_level (data : Tensor) (randn : Nat → ℚ) (clip : Bool) :
    noise_input data 0 randn clip = data := by
  simp [noise_input]

/-- C7: every value of `noise_input(data, noise_level=0.1, clip=True)` lies
in `[-1, 1]`. -/
theorem noise_input_clip_bounds (data : Tensor) (randn : Nat → ℚ) :
    ∀ v ∈ (noise_input data (1/10) randn true).data, -1 ≤ v ∧ v ≤ 1 := by
  intro v hv
  have h10 : ((1/10 : ℚ) == 0) = false := by norm_num
  simp only [noise_input, h10, Bool.false_eq_true, if_false, if_pos] at hv
  obtain ⟨u, _, hu⟩ := List.mem_map.mp hv
  subst hu
  exact ⟨le_min (by norm_num) (le_max_left _ _), min_le_left _ _⟩

/-- C8: `mask_pair_to_label` applied to an identical pair returns the
all-ones vector whose length is the batch size of the finest-resolution
mask (the hypothesis keeps the per-row mean non-degenerate, matching
Python where a mean over an empty row is undefined). -/
theorem mask_pair_to_label_identical (mask : List Tensor)
    (_hrow : 0 < (mask.getLastD Tensor.default).data.length /
        (mask.getLastD Tensor.default).shape.headD 0) :
    mask_pair_to_label mask mask
      = List.replicate ((mask.getLastD Tensor.default).shape.headD 0) 1 := by
  have hzero : (fun a : ℚ => |a - a| / 2) = fun _ => (0 : ℚ) := by
    funext a; simp
  refine List.eq_replicate_iff.mpr ⟨by simp [mask_pair_to_label], ?_⟩
  intro x hx
  simp only [mask_pair_to_label, List.mem_map, List.mem_range] at hx
  obtain ⟨i, _, hi⟩ := hx
  rw [zipWith_self_eq_map, hzero, List.map_const', List.drop_replicate,
    List.take_replicate, List.sum_replicate, smul_zero, zero_div,
    sub_zero] at hi
  exact hi.symm

/-- C9 (frame property of `weights_init`): the class name and all other
attributes are never touched; a layer matching neither name pattern is
returned completely unchanged; a "Conv" layer has only its weight
overwritten (normal(0, 0.02) stream); a "BatchNorm" (non-"Conv") layer has
its weight overwritten (normal(1, 0.02) stream) and its bias zeroed. -/
theorem weights_init_frame (rndConv rndBN : Nat → ℚ) (m : Layer) :
    (weights_init rndConv rndBN m).className = m.className ∧
    (weights_init rndConv rndBN m).extra = m.extra ∧
    (nameContains m.className "Conv" = false →
      nameContains m.className "BatchNorm" = false →
      weights_init rndConv rndBN m = m) ∧
    (nameContains m.className "Conv" = true →
      (weights_init rndConv rndBN m).weight = normal_overwrite rndConv m.weight ∧
      (weights_init rndConv rndBN m).bias = m.bias) ∧
    (nameContains m.className "BatchNorm" = true →
      nameContains m.className "Conv" = false →
      (weights_init rndConv rndBN m).weight = normal_overwrite rndBN m.weight ∧
      (weights_init rndConv rndBN m).bias = constant_overwrite 0 m.bias) := by
  by_cases hc : nameContains m.className "Conv" = true <;>
    by_cases hb : nameContains m.className "BatchNorm" = true <;>
      simp [weights_init, hc, hb]

/-- Witness for C9: the three concrete cases discharged at concrete layers
(a Conv2d layer keeps its bias, a BatchNorm2d layer gets a zeroed bias, a
Linear layer is untouched). -/
theorem weights_init_frame_witness :
    (weights_init (fun _ => 0) (fun _ => 0)
        ⟨"Conv2d", ⟨[2], [1, 2]⟩, ⟨[1], [3]⟩, [7]⟩).bias = ⟨[1], [3]⟩ ∧
    (weights_init (fun _ => 0) (fun _ => 0)
        ⟨"BatchNorm2d", ⟨[2], [1, 2]⟩, ⟨[1], [3]⟩, [7]⟩).bias
      = constant_overwrite 0 ⟨[1], [3]⟩ ∧
    weights_init (fun _ => 0) (fun _ => 0) ⟨"Linear", ⟨[2], [1, 2]⟩, ⟨[1], [3]⟩, [7]⟩
      = ⟨"Linear", ⟨[2], [1, 2]⟩, ⟨[1], [3]⟩, [7]⟩ := by
  refine ⟨?_, ?_, ?_⟩
  · exact ((weights_init_frame (fun _ => 0) (fun _ => 0)
      ⟨"Conv2d", ⟨[2], [1, 2]⟩, ⟨[1], [3]⟩, [7]⟩).2.2.2.1 (by decide)).2
  · exact ((weights_init_frame (fun _ => 0) (fun _ => 0)
      ⟨"BatchNorm2d", ⟨[2], [1, 2]⟩, ⟨[1], [3]⟩, [7]⟩).2.2.2.2 (by decide) (by decide)).2
  · exact (weights_init_frame (fun _ => 0) (fun _ => 0)
      ⟨"Linear", ⟨[2], [1, 2]⟩, ⟨[1], [3]⟩, [7]⟩).2.2.1 (by decide) (by decide)

namespace flower_dataset

theorem enum_eq_enumFrom {α : Type} (l : List α) : l.enum = List.enumFrom 0 l := rfl

/-- Closed form of eager construction (`in_memory = True`). -/
theorem init_eager (env : Env) (paths : List String)
    (mask_paths : Option (List String)) (mask_sizes : Option (List Nat))
    (tfm mtfm : Option (Tensor → Tensor)) :
    init env paths mask_paths mask_sizes tfm mtfm true =
      { len := paths.length - paths.countP (fun p => !keep3 env p),
        transform := tfm, mask_transform := mtfm, in_memory := true,
        mask_sizes := mask_sizes,
        image := (paths.enum.filter (fun x => keep3 env x.2)).map
          (fun x => applyT tfm (env.imread x.2)),
        mask := (paths.enum.filter (fun x => keep3 env x.2)).map
          (fun x => builtMask env mask_paths mask_sizes mtfm x.1),
        image_paths := [], mask_paths := [] } := by
  simp only [init, Bool.not_true, Bool.false_eq_true, if_false]
  rw [eagerLoop_spec]
  simp only [enum_eq_enumFrom, List.nil_append]
  congr 1
  exact congrArg (paths.length - ·) (countP_enumFrom_snd (fun p => !keep3 env p) 0 paths)

/-- C1 (amended): the reported length of an eagerly constructed dataset is
the number of supplied image paths whose decoded image has exactly 3
dimensions (`len(image.shape) == 3`); no other field of the input matters
and no failure is possible, the non-3-dimensional images being skipped. -/
theorem init_eager_len (env : Env) (paths : List String)
    (mask_paths : Option (List String)) (mask_sizes : Option (List Nat))
    (tfm mtfm : Option (Tensor → Tensor)) :
    (init env paths mask_paths mask_sizes tfm mtfm true).len
      = paths.countP (keep3 env) := by
  rw [init_eager]
  have h := countP_not_add (keep3 env) paths
  simp only []
  omega

/-- C1 (counterexample to the claim as stated): a 4-channel `(2, 2, 4)`
RGBA image is NOT skipped by the code (its array is 3-dimensional), so the
reported length is 1 while the count of supplied images with exactly 3
channels is 0. -/
theorem C1_three_channels_counterexample :
    ¬ ((init envTest ["rgba.png"] none (some [8]) none none true).len
        = List.countP (fun p => hasThreeChannels (envTest.imread p)) ["rgba.png"]) := by
  decide

end flower_dataset

namespace flower_dataset

theorem snd_mem_of_mem_enumFrom {α : Type} {x : Nat × α} {n : Nat}
    {l : List α} (h : x ∈ List.enumFrom n l) : x.2 ∈ l := by
  obtain ⟨i, a⟩ := x
  obtain ⟨h1, h2, h3⟩ := List.mem_enumFrom h
  rw [show (i, a).2 = a from rfl, h3]
  exact List.getElem_mem _

theorem filter_length_eager (env : Env) (paths : List String) :
    ((paths.enum.filter (fun x => keep3 env x.2))).length
      = paths.length - paths.countP (fun p => !keep3 env p) := by
  rw [← List.countP_eq_length_filter, enum_eq_enumFrom,
    countP_enumFrom_snd (keep3 env) 0 paths]
  have h := countP_not_add (keep3 env) paths
  omega

/-- C10: after eager construction the internal image list and mask list
have equal lengths, both equal to the reported length, and lookup at every
index below the reported length returns a well-defined (image, mask-list)
pair. -/
theorem init_eager_index_invariant (env : Env) (paths : List String)
    (mask_paths : Option (List String)) (mask_sizes : Option (List Nat))
    (tfm mtfm : Option (Tensor → Tensor)) :
    ((init env paths mask_paths mask_sizes tfm mtfm true).image.length
        = (init env paths mask_paths mask_sizes tfm mtfm true).len) ∧
    ((init env paths mask_paths mask_sizes tfm mtfm true).mask.length
        = (init env paths mask_paths mask_sizes tfm mtfm true).len) ∧
    ∀ i, i < (init env paths mask_paths mask_sizes tfm mtfm true).len →
      ∃ pr, getitem env (init env paths mask_paths mask_sizes tfm mtfm true) i
        = some pr := by
  rw [init_eager]
  refine ⟨by simp [filter_length_eager], by simp [filter_length_eager], ?_⟩
  intro i hi
  simp only [] at hi
  have hi1 : i < ((paths.enum.filter (fun x => keep3 env x.2)).map
      (fun x => applyT tfm (env.imread x.2))).length := by
    rw [List.length_map, filter_length_eager]; exact hi
  have hi2 : i < ((paths.enum.filter (fun x => keep3 env x.2)).map
      (fun x => builtMask env mask_paths mask_sizes mtfm x.1)).length := by
    rw [List.length_map, filter_length_eager]; exact hi
  obtain ⟨img, h1⟩ : ∃ x, ((paths.enum.filter (fun x => keep3 env x.2)).map
      (fun x => applyT tfm (env.imread x.2)))[i]? = some x :=
    ⟨_, List.getElem?_eq_getElem hi1⟩
  obtain ⟨msk, h2⟩ : ∃ x, ((paths.enum.filter (fun x => keep3 env x.2)).map
      (fun x => builtMask env mask_paths mask_sizes mtfm x.1))[i]? = some x :=
    ⟨_, List.getElem?_eq_getElem hi2⟩
  exact ⟨(img, msk), by simp [getitem, h1, h2]⟩

/-- Witness for C10: a concrete eager dataset of one RGB image has a
well-defined sample at index 0. -/
theorem init_eager_index_invariant_witness :
    ∃ pr, getitem envTest (init envTest ["a.png"] none (some [2]) none none true) 0
      = some pr :=
  (init_eager_index_invariant envTest ["a.png"] none (some [2]) none none).2.2 0
    (by decide)

end flower_dataset

namespace flower_dataset

/-- C3: built eagerly from 3 RGB image paths with no mask paths and
`mask_sizes=[8,16]`, the dataset has length 3 and every lookup returns a
mask-list of exactly 2 sentinel masks, of shapes `(1,8,8)` and
`(1,16,16)`, every value being `-1`. -/
theorem init_three_rgb_empty_masks (env : Env) (p1 p2 p3 : String)
    (h : ∀ p ∈ [p1, p2, p3], ∃ a b, (env.imread p).shape = [a, b, 3]) :
    (init env [p1, p2, p3] none (some [8, 16]) none none true).len = 3 ∧
    ∀ i, i < 3 →
      ∃ img, getitem env (init env [p1, p2, p3] none (some [8, 16]) none none true) i
          = some (img, [negOnes 8, negOnes 16])
        ∧ [negOnes 8, negOnes 16].length = 2
        ∧ (negOnes 8).shape = [1, 8, 8] ∧ (negOnes 16).shape = [1, 16, 16]
        ∧ (∀ v ∈ (negOnes 8).data, v = -1) ∧ (∀ v ∈ (negOnes 16).data, v = -1) := by
  have hkeep : ∀ p ∈ [p1, p2, p3], keep3 env p = true := by
    intro p hp
    obtain ⟨a, b, hs⟩ := h p hp
    simp [keep3, hs]
  have hfilter : ([p1, p2, p3].enum.filter (fun x => keep3 env x.2))
      = [p1, p2, p3].enum := by
    refine List.filter_eq_self.mpr ?_
    intro x hx
    exact hkeep x.2 (snd_mem_of_mem_enumFrom (by rw [← enum_eq_enumFrom]; exact hx))
  have hcount : List.countP (fun p => !keep3 env p) [p1, p2, p3] = 0 := by
    simp [List.countP_cons, hkeep p1 (by simp), hkeep p2 (by simp),
      hkeep p3 (by simp)]
  have hmaskfun : (fun x : Nat × String =>
      builtMask env none (some [8, 16]) none x.1)
        = fun _ => [negOnes 8, negOnes 16] := rfl
  constructor
  · rw [init_eager]
    simp only [hcount]
    rfl
  · intro i hi
    have hmask_eq : (init env [p1, p2, p3] none (some [8, 16]) none none true).mask
        = List.replicate 3 [negOnes 8, negOnes 16] := by
      rw [init_eager]
      simp only [hfilter, hmaskfun, List.map_const', List.enum_length]
      rfl
    have himg_len : (init env [p1, p2, p3] none (some [8, 16]) none none true).image.length
        = 3 := by
      rw [init_eager]
      simp only [hfilter, List.length_map, List.enum_length]
      rfl
    obtain ⟨img, h1⟩ : ∃ x,
        (init env [p1, p2, p3] none (some [8, 16]) none none true).image[i]? = some x :=
      ⟨_, List.getElem?_eq_getElem (by rw [himg_len]; exact hi)⟩
    have h2 : (init env [p1, p2, p3] none (some [8, 16]) none none true).mask[i]?
        = some [negOnes 8, negOnes 16] := by
      rw [hmask_eq, List.getElem?_replicate, if_pos hi]
    have hmem : (init env [p1, p2, p3] none (some [8, 16]) none none true).in_memory
        = true := by
      rw [init_eager]
    refine ⟨img, ?_, rfl, rfl, rfl, ?_, ?_⟩
    · simp [getitem, hmem, h1, h2]
    · intro v hv; exact List.eq_of_mem_replicate hv
    · intro v hv; exact List.eq_of_mem_replicate hv

/-- Witness for C3 at the concrete environment where each of the paths
"a", "b", "c" decodes to a `(1, 1, 3)` RGB raster. -/
theorem init_three_rgb_empty_masks_witness :
    (init envTest ["a", "b", "c"] none (some [8, 16]) none none true).len = 3 ∧
    ∃ img, getitem envTest (init envTest ["a", "b", "c"] none (some [8, 16]) none none true) 0
        = some (img, [negOnes 8, negOnes 16])
      ∧ [negOnes 8, negOnes 16].length = 2
      ∧ (negOnes 8).shape = [1, 8, 8] ∧ (negOnes 16).shape = [1, 16, 16]
      ∧ (∀ v ∈ (negOnes 8).data, v = -1) ∧ (∀ v ∈ (negOnes 16).data, v = -1) := by
  have h := init_three_rgb_empty_masks envTest "a" "b" "c" (by
    intro p hp
    refine ⟨1, 1, ?_⟩
    rcases List.mem_cons.mp hp with rfl | hp
    · decide
    rcases List.mem_cons.mp hp with rfl | hp
    · decide
    rcases List.mem_cons.mp hp with rfl | hp
    · decide
    · simp at hp)
  exact ⟨h.1, h.2 0 (by norm_num)⟩

end flower_dataset

namespace flower_dataset

/-- Closed form of lazy construction (`in_memory = False`). -/
theorem init_lazy (env : Env) (paths : List String)
    (mask_paths : Option (List String)) (mask_sizes : Option (List Nat))
    (tfm mtfm : Option (Tensor → Tensor)) :
    init env paths mask_paths mask_sizes tfm mtfm false =
      { len := paths.length, transform := tfm, mask_transform := mtfm,
        in_memory := false, mask_sizes := mask_sizes, image := [], mask := [],
        image_paths := paths,
        mask_paths :=
          match mask_paths with
          | none => List.replicate paths.length none
          | some mps => mps.map some } := by
  simp [init]

/-- C2 (amended): an eager and a lazy dataset built from the same inputs
agree on lookup at every index, provided every supplied image decodes to a
3-dimensional array (so the eager loop skips nothing) and, when mask paths
are supplied, they are as many as the image paths and gray-scale decoding
agrees with plain decoding on them (the eager loop reads masks with
`as_gray=True`, the lazy lookup without). -/
theorem eager_lazy_lookup_agree (env : Env) (paths : List String)
    (mask_paths : Option (List String)) (mask_sizes : Option (List Nat))
    (tfm mtfm : Option (Tensor → Tensor))
    (h3 : ∀ p ∈ paths, (env.imread p).shape.length = 3)
    (hmp : ∀ mps, mask_paths = some mps →
      mps.length = paths.length ∧ ∀ mp ∈ mps, env.imreadGray mp = env.imread mp) :
    ∀ idx, getitem env (init env paths mask_paths mask_sizes tfm mtfm true) idx
        = getitem env (init env paths mask_paths mask_sizes tfm mtfm false) idx := by
  have hkeep : ∀ p ∈ paths, keep3 env p = true := by
    intro p hp; simp [keep3, h3 p hp]
  have hfilter : (paths.enum.filter (fun x => keep3 env x.2)) = paths.enum := by
    refine List.filter_eq_self.mpr ?_
    intro x hx
    exact hkeep x.2 (snd_mem_of_mem_enumFrom (by rw [← enum_eq_enumFrom]; exact hx))
  have himg : (init env paths mask_paths mask_sizes tfm mtfm true).image
      = paths.map (fun p => applyT tfm (env.imread p)) := by
    rw [init_eager]
    rw [show (paths.enum.filter (fun x => keep3 env x.2)) = paths.enum from hfilter,
      enum_eq_enumFrom]
    exact map_snd_enumFrom (fun p => applyT tfm (env.imread p)) 0 paths
  have hmask : (init env paths mask_paths mask_sizes tfm mtfm true).mask
      = (List.range' 0 paths.length).map
          (builtMask env mask_paths mask_sizes mtfm) := by
    rw [init_eager]
    rw [show (paths.enum.filter (fun x => keep3 env x.2)) = paths.enum from hfilter,
      enum_eq_enumFrom]
    exact map_fst_enumFrom (builtMask env mask_paths mask_sizes mtfm) 0 paths
  have hmem : (init env paths mask_paths mask_sizes tfm mtfm true).in_memory
      = true := by
    rw [init_eager]
  intro idx
  by_cases hidx : idx < paths.length
  · have h1 : (init env paths mask_paths mask_sizes tfm mtfm true).image[idx]?
        = some (applyT tfm (env.imread paths[idx])) := by
      rw [himg, List.getElem?_map, List.getElem?_eq_getElem hidx, Option.map_some']
    have h2 : (init env paths mask_paths mask_sizes tfm mtfm true).mask[idx]?
        = some (builtMask env mask_paths mask_sizes mtfm idx) := by
      rw [hmask, List.getElem?_map, List.getElem?_range' 0 1 hidx, Option.map_some']
      simp
    have hL : getitem env (init env paths mask_paths mask_sizes tfm mtfm true) idx
        = some (applyT tfm (env.imread paths[idx]),
            builtMask env mask_paths mask_sizes mtfm idx) := by
      simp [getitem, hmem, h1, h2]
    rw [hL]
    cases mask_paths with
    | none =>
      simp [getitem, init_lazy, List.getElem?_eq_getElem hidx,
        List.getElem?_replicate, hidx, builtMask]
    | some mps =>
      obtain ⟨hlen, hgray⟩ := hmp mps rfl
      have hidx2 : idx < mps.length := by omega
      have hmp_idx : (mps.map some)[idx]? = some (some mps[idx]) := by
        rw [List.getElem?_map, List.getElem?_eq_getElem hidx2, Option.map_some']
      have hgetD : mps.getD idx "" = mps[idx] := List.getD_eq_getElem mps "" hidx2
      have hgr : env.imreadGray mps[idx] = env.imread mps[idx] :=
        hgray _ (List.getElem_mem hidx2)
      simp [getitem, init_lazy, List.getElem?_eq_getElem hidx, hmp_idx,
        builtMask, hgetD, hgr, List.getElem?_eq_getElem hidx2]
  · have h1 : (init env paths mask_paths mask_sizes tfm mtfm true).image[idx]?
        = none := by
      rw [himg]
      exact List.getElem?_eq_none (by rw [List.length_map]; omega)
    have h2 : (init env paths mask_paths mask_sizes tfm mtfm true).mask[idx]?
        = none := by
      rw [hmask]
      exact List.getElem?_eq_none (by rw [List.length_map, List.length_range']; omega)
    have hp : paths[idx]? = none := List.getElem?_eq_none (by omega)
    simp [getitem, hmem, h1, h2, init_lazy, hp]

/-- Witness for C2 (amended) at a concrete one-image, no-mask dataset. -/
theorem eager_lazy_lookup_agree_witness :
    getitem envTest (init envTest ["a"] none (some [2]) none none true) 0
      = getitem envTest (init envTest ["a"] none (some [2]) none none false) 0 :=
  eager_lazy_lookup_agree envTest ["a"] none (some [2]) none none
    (by intro p hp; rcases List.mem_cons.mp hp with rfl | hp
        · decide
        · simp at hp)
    (fun mps h => Option.noConfusion h) 0

/-- C2 (counterexample to the claim as stated): with image paths
`["gray.png", "x.png"]`, where the first decodes to a 2-dimensional
(grayscale) array, the eager dataset skips it while the lazy dataset does
not, so lookup at the (valid) index 0 differs between the two modes. -/
theorem C2_eager_lazy_counterexample :
    ¬ (getitem envTest (init envTest ["gray.png", "x.png"] none (some [2]) none none true) 0
        = getitem envTest (init envTest ["gray.png", "x.png"] none (some [2]) none none false) 0) := by
  decide

end flower_dataset

theorem Tensor.default_add (x : Tensor) : Tensor.default.add x = Tensor.default := rfl

theorem addRealRow_getD (rm : List Tensor) (i : Nat) :
    ∀ (masks : List (List Tensor)) (k0 k : Nat),
      (addRealRow rm i masks k0).getD k []
        = (masks.getD k []).set i (((masks.getD k []).getD i Tensor.default).add
            (rm.getD (k0 + k) Tensor.default))
  | [], k0, k => by simp [addRealRow]
  | col :: rest, k0, 0 => by simp [addRealRow]
  | col :: rest, k0, k + 1 => by
    have h : k0 + 1 + k = k0 + (k + 1) := by omega
    simp only [addRealRow, List.getD_cons_succ]
    rw [addRealRow_getD rm i rest (k0 + 1) k, h]

theorem foldl_addRealRow_spec (rmOf : Nat → List Tensor)
    (init0 : List (List Tensor)) :
    ∀ n k i,
      ((((List.range n).foldl (fun masks j => addRealRow (rmOf j) j masks 0)
          init0).getD k []).length = (init0.getD k []).length)
      ∧ ((((List.range n).foldl (fun masks j => addRealRow (rmOf j) j masks 0)
          init0).getD k []).getD i Tensor.default
        = if i < n then
            ((init0.getD k []).getD i Tensor.default).add
              ((rmOf i).getD k Tensor.default)
          else (init0.getD k []).getD i Tensor.default) := by
  intro n
  induction n with
  | zero => intro k i; simp
  | succ n ih =>
    intro k i
    rw [List.range_succ, List.foldl_append, List.foldl_cons, List.foldl_nil]
    set P := (List.range n).foldl (fun masks j => addRealRow (rmOf j) j masks 0)
      init0 with hP
    rw [addRealRow_getD]
    constructor
    · rw [List.length_set]
      exact (ih k i).1
    · simp only [Nat.zero_add]
      rw [List.getD_eq_getElem?_getD, List.getElem?_set]
      by_cases hin : n = i
      · subst hin
        rw [if_pos rfl]
        have hval := (ih k n).2
        rw [if_neg (lt_irrefl n)] at hval
        by_cases hlen : n < (P.getD k []).length
        · rw [if_pos hlen, Option.getD_some, hval, if_pos (Nat.lt_succ_self n)]
        · rw [if_neg hlen, Option.getD_none, if_pos (Nat.lt_succ_self n)]
          have hinit : (init0.getD k []).length ≤ n := by
            have := (ih k n).1
            omega
          rw [List.getD_eq_default _ _ hinit, Tensor.default_add]
      · rw [if_neg hin, ← List.getD_eq_getElem?_getD]
        rcases Nat.lt_or_ge i n with h | h
        · rw [(ih k i).2, if_pos h, if_pos (by omega)]
        · have hn : ¬ i < n := by omega
          have hn1 : ¬ i < n + 1 := by omega
          rw [(ih k i).2, if_neg hn, if_neg hn1]

/-- C5: in `sample_mask`, for every batch element `i` a single random
example index `pick i` is drawn, and for every requested resolution `k`
the returned batch slice `masks[k][i]` equals the Gaussian noise slice
scaled by `noise_level` plus that same example's `k`-th mask
`realdata[pick i][1][k]` — the same `pick i` across all resolutions. -/
theorem sample_mask_spec (batch_size : Nat) (sizes : List Nat)
    (realdata : List (Tensor × List Tensor)) (noise_level : ℚ)
    (randn : Nat → Nat → Nat → ℚ) (pick : Nat → Nat) (k i : Nat)
    (hk : k < sizes.length) (hi : i < batch_size)
    (_hpick : pick i < realdata.length) :
    ((sample_mask batch_size sizes realdata noise_level randn pick).getD k []).getD
        i Tensor.default
      = (noiseSlice randn noise_level k i (sizes.getD k 0)).add
          ((realdata.getD (pick i) (Tensor.default, [])).2.getD k Tensor.default) := by
  have hcol : (sample_mask_init batch_size sizes noise_level randn).getD k []
      = (List.range batch_size).map
          (fun j => noiseSlice randn noise_level k j (sizes.getD k 0)) := by
    unfold sample_mask_init
    rw [List.getD_eq_getElem?_getD, List.getElem?_map, List.getElem?_enum,
      List.getElem?_eq_getElem hk, Option.map_some', Option.map_some',
      Option.getD_some, List.getD_eq_getElem sizes 0 hk]
  have hinit : ((sample_mask_init batch_size sizes noise_level randn).getD k []).getD
      i Tensor.default = noiseSlice randn noise_level k i (sizes.getD k 0) := by
    rw [hcol, List.getD_eq_getElem?_getD, List.getElem?_map, List.getElem?_range hi,
      Option.map_some', Option.getD_some]
  have h := (foldl_addRealRow_spec
      (fun j => (realdata.getD (pick j) (Tensor.default, [])).2)
      (sample_mask_init batch_size sizes noise_level randn) batch_size k i).2
  rw [if_pos hi] at h
  unfold sample_mask
  rw [h, hinit]

/-- Witness for C5 at a one-element batch, one resolution, one real
example. -/
theorem sample_mask_spec_witness :
    ((sample_mask 1 [1] [(⟨[1, 1, 3], [0, 0, 0]⟩, [⟨[1, 1, 1], [9]⟩])] 1
        (fun _ _ _ => 2) (fun _ => 0)).getD 0 []).getD 0 Tensor.default
      = (noiseSlice (fun _ _ _ => 2) 1 0 0 ([1].getD 0 0)).add
          ((([(⟨[1, 1, 3], [0, 0, 0]⟩,
              [⟨[1, 1, 1], [9]⟩])] : List (Tensor × List Tensor)).getD 0
            (Tensor.default, [])).2.getD 0 Tensor.default) :=
  sample_mask_spec 1 [1] [(⟨[1, 1, 3], [0, 0, 0]⟩, [⟨[1, 1, 1], [9]⟩])] 1
    (fun _ _ _ => 2) (fun _ => 0) 0 0 (by decide) (by decide) (by decide)

/-- Witness for C7 at a concrete tensor and noise stream: the clamped
entry is inside `[-1, 1]`. -/
theorem noise_input_clip_bounds_witness :
    -1 ≤ ((noise_input ⟨[1], [5]⟩ (1/10) (fun _ => 0) true).data.getD 0 0 : ℚ) ∧
    ((noise_input ⟨[1], [5]⟩ (1/10) (fun _ => 0) true).data.getD 0 0 : ℚ) ≤ 1 :=
  noise_input_clip_bounds ⟨[1], [5]⟩ (fun _ => 0) _
    (by norm_num [noise_input, Tensor.add, clamp1])

/-- Witness for C8 at a concrete 2-element batch mask of shape
`(2, 1, 1, 2)`. -/
theorem mask_pair_to_label_identical_witness :
    mask_pair_to_label [⟨[2, 1, 1, 2], [3, 4, 5, 6]⟩] [⟨[2, 1, 1, 2], [3, 4, 5, 6]⟩]
      = List.replicate 2 1 :=
  mask_pair_to_label_identical [⟨[2, 1, 1, 2], [3, 4, 5, 6]⟩] (by decide)
